import Mathlib

set_option maxHeartbeats 1000000

/-!
Verification development for the fhirpathjs-async proof-of-concept: a shallow
embedding of the iterative asynchronous FHIRPath evaluation driver
(`evaluateFhirpathAsync` in `src/unnamed/part_001`), its function interception
layer (`memberOf`, `resolve`, `toAge`), its pending-call registry (a JS `Map`
keyed by call fingerprints), and its external-call adapters (`memberOfAsync`,
`resolveAsync` in both the fetch-based and the mocked variants), together with
the date helper `birthdateToAge` from `src/utils/birthdate-to-age.ts` and the
early interception layer from `src/utils/fhirpath-async.ts`.
-/

namespace FhirpathAsyncPOC

/-- Values flowing through the intercepted FHIRPath functions (the JS code
uses untyped `any` values; these constructors cover the values the embedded
code manufactures or stores: booleans from `memberOf`, numbers from `toAge`,
strings, and fetched resource payloads from `resolve`). -/
inductive Value where
  | boolV (b : Bool)
  | intV (n : Int)
  | strV (s : String)
  | resource (resourceType : String) (id : String)
deriving DecidableEq, Repr

/-- FHIR `Coding` as used by the embedded code: only `system` and `code` are
read; either field may be `undefined`. -/
structure Coding where
  system : Option String
  code : Option String
deriving DecidableEq, Repr

/-- FHIR `CodeableConcept`: only the `coding` field is read by the embedded
code; it may be `undefined`. -/
structure CodeableConcept where
  coding : Option (List Coding)
deriving DecidableEq, Repr

/-- Union argument shape accepted by `memberOf`: `string | Coding | CodeableConcept`. -/
inductive CodeData where
  | str (s : String)
  | coding (c : Coding)
  | codeableConcept (cc : CodeableConcept)
deriving DecidableEq, Repr

/-- FHIR `Reference` object: only the `reference` field is read. -/
structure RefObj where
  reference : Option String
deriving DecidableEq, Repr

/-- Union argument shape accepted by `resolve`: `string | Reference`. -/
inductive RefData where
  | str (s : String)
  | ref (r : RefObj)
deriving DecidableEq, Repr

/-- JS string coercion of a possibly-`undefined` string: `undefined + "x"`
prints as `"undefinedx"`. -/
def jsStr : Option String → String
  | none => "undefined"
  | some s => s

/-- JS truthiness of a possibly-`undefined` string: `undefined` and `""` are
falsy, every other string is truthy. -/
def jsTruthy : Option String → Bool
  | none => false
  | some s => s != ""

/-- `createIndexKeyMemberOf` from `src/unnamed/part_001` (lines 262-276):
builds the call fingerprint for `memberOf`, or `undefined` when no accepted
shape matches.  The JS code probes the same value for `.code` and then
`.coding`; each constructor of `CodeData` carries exactly one of those
property sets, so the probe order collapses to a match per constructor. -/
def createIndexKeyMemberOf (value : CodeData) (valueset : String) : Option String :=
  match value with
  | .str s => some (s ++ " - " ++ valueset)
  | .coding c =>
      -- `if (coding.code)`: truthy code required; a Coding has no `.coding`
      -- field, so the fall-through returns `undefined`
      if jsTruthy c.code then
        some (jsStr c.system ++ "|" ++ jsStr c.code ++ " - " ++ valueset)
      else none
  | .codeableConcept cc =>
      -- a CodeableConcept has no `.code` field; `if (cc.coding)`: any present
      -- array (even empty) is truthy
      match cc.coding with
      | some l =>
          some (String.intercalate "," (l.map (fun c => jsStr c.system ++ "|" ++ jsStr c.code))
                ++ " - " ++ valueset)
      | none => none

/-- `createIndexKeyResolve` from `src/unnamed/part_001` (lines 209-215): the
fingerprint of a `resolve` call is the literal reference string, or the
`reference` field of a Reference object (objects are always truthy in JS, so
the second branch always returns the field, which may itself be `undefined`). -/
def createIndexKeyResolve (value : RefData) : Option String :=
  match value with
  | .str s => some s
  | .ref r => r.reference

/-- The stored arguments of a pending call, i.e. the payload of
`ResolveUserData` / `MemberOfUserData` beyond the base record fields. -/
inductive AsyncDetail where
  | resolveData (value : RefData)
  | memberOfData (value : CodeData) (valueset : String)
deriving DecidableEq, Repr

/-- `AsyncFunctionUserData`: one pending-call record.  `result` is `none`
both before completion and for a completed call that resolved to nothing. -/
structure RecordData where
  evaluationCompleted : Bool
  result : Option Value
  detail : AsyncDetail
deriving DecidableEq, Repr

/-- JS `Map.get`: the JS `Map` keyed by fingerprint strings is embedded as an
association list in insertion order with (invariantly) no duplicate keys. -/
def mapGet {α : Type} : List (String × α) → String → Option α
  | [], _ => none
  | kv :: rest, k => if kv.1 = k then some kv.2 else mapGet rest k

/-- JS `Map.set`: updates the first entry with the key in place (keeping
iteration order), or appends a new entry at the end. -/
def mapSet {α : Type} : List (String × α) → String → α → List (String × α)
  | [], k, v => [(k, v)]
  | kv :: rest, k, v => if kv.1 = k then (k, v) :: rest else kv :: mapSet rest k v

/-- The pending-call registry (`asyncCallsRequired : Map<string, AsyncFunctionUserData>`). -/
abbrev Registry := List (String × RecordData)

/-- The state visible to the interception handlers while one synchronous
evaluation pass runs: the registry plus the `requiresAsyncProcessing` flag. -/
structure PassState where
  registry : Registry
  requiresAsyncProcessing : Bool
deriving DecidableEq, Repr

/-- The common body of the `memberOf` and `resolve` interception handlers
(part_001 lines 92-107 and 116-132), applied to one input element once its
(truthy) fingerprint `key` has been built: a completed record answers from the
memoized `result`; otherwise a fresh not-completed record is stored under the
key and the pass is marked incomplete, returning `undefined` for the element. -/
def handlerElement (st : PassState) (key : String) (freshDetail : AsyncDetail) :
    PassState × Option Value :=
  match mapGet st.registry key with
  | some r =>
      if r.evaluationCompleted then (st, r.result)
      else
        ({ registry := mapSet st.registry key ⟨false, none, freshDetail⟩,
           requiresAsyncProcessing := true }, none)
  | none =>
      ({ registry := mapSet st.registry key ⟨false, none, freshDetail⟩,
         requiresAsyncProcessing := true }, none)

/-- One element of the `memberOf` interception handler (part_001 lines
113-139): skip the element (returning `undefined`, with no side effect) when
the fingerprint is absent or falsy, else run the registry protocol under the
`"MemberOf:"`-tagged key. -/
def memberOfElement (st : PassState) (valueset : String) (codeData : CodeData) :
    PassState × Option Value :=
  match createIndexKeyMemberOf codeData valueset with
  | some key0 =>
      if key0 = "" then (st, none)
      else handlerElement st ("MemberOf:" ++ key0) (.memberOfData codeData valueset)
  | none => (st, none)

/-- One element of the `resolve` interception handler (part_001 lines 89-111). -/
def resolveElement (st : PassState) (reference : RefData) : PassState × Option Value :=
  match createIndexKeyResolve reference with
  | some key0 =>
      if key0 = "" then (st, none)
      else handlerElement st ("Resolve:" ++ key0) (.resolveData reference)
  | none => (st, none)

/-- A calendar date, standing in for the JS `Date` read through
`getFullYear`/`getMonth`/`getDate`.  `month` and `day` are 1-based here; the
JS `getMonth` is 0-based on both sides of every comparison in the embedded
code, so the shift is order-isomorphic and the comparisons are unchanged. -/
structure SimpleDate where
  year : Nat
  month : Nat
  day : Nat
deriving DecidableEq, Repr

/-- Digits of a `YYYY-MM-DD` slice to a number. -/
def digitsToNat (cs : List Char) : Nat :=
  cs.foldl (fun a c => a * 10 + (c.toNat - '0'.toNat)) 0

/-- Split a string of the exact shape `YYYY-MM-DD` (the regex
`^\d{4}-\d{2}-\d{2}$` of `isValidDateString`) into year, month, day. -/
def parseYmd (s : String) : Option (Nat × Nat × Nat) :=
  match s.toList with
  | [y1, y2, y3, y4, h1, m1, m2, h2, d1, d2] =>
      if y1.isDigit && y2.isDigit && y3.isDigit && y4.isDigit &&
         m1.isDigit && m2.isDigit && d1.isDigit && d2.isDigit &&
         (h1 = '-') && (h2 = '-') then
        some (digitsToNat [y1, y2, y3, y4], digitsToNat [m1, m2], digitsToNat [d1, d2])
      else none
  | _ => none

/-- Gregorian leap-year rule (as implemented by JS `Date` normalization). -/
def isLeapYear (y : Nat) : Bool :=
  (y % 4 == 0) && (!(y % 100 == 0) || (y % 400 == 0))

/-- Days in a month of the Gregorian calendar. -/
def daysInMonth (y m : Nat) : Nat :=
  if m = 2 then (if isLeapYear y then 29 else 28)
  else if m = 4 ∨ m = 6 ∨ m = 9 ∨ m = 11 then 30
  else 31

/-- `isValidDateString` from `src/utils/birthdate-to-age.ts` (lines 21-35).
The source checks the regex, that `new Date(s)` parses to a non-NaN
timestamp, and that `toISOString` round-trips to the input; the net effect of
the three checks is: the string matches `YYYY-MM-DD` and denotes a real
Gregorian calendar date (rolled-over dates such as `"2021-02-29"` fail the
round-trip, out-of-format numbers fail the parse). -/
def isValidDateString (s : String) : Bool :=
  match parseYmd s with
  | some (y, m, d) => decide (1 ≤ m ∧ m ≤ 12 ∧ 1 ≤ d ∧ d ≤ daysInMonth y m)
  | none => false

/-- `birthdateToAge` from `src/utils/birthdate-to-age.ts` (lines 4-18):
`undefined` for invalid date strings, else the age at `today` in whole years.
`today` stands for the `new Date()` call. -/
def birthdateToAge (today : SimpleDate) (birthDate : String) : Option Int :=
  if !isValidDateString birthDate then none
  else
    match parseYmd birthDate with
    | some (y, m, d) =>
        let age : Int := (today.year : Int) - (y : Int)
        if today.month < m ∨ (today.month = m ∧ today.day < d) then some (age - 1)
        else some age
    | none => none

/-- The observable effect of one adapter invocation (`asyncFunction(outcome,
details)`): the completion flag and result it leaves on its record, and the
structured failure it throws, if any.  The invoked record always has
`evaluationCompleted = false` and `result = none` beforehand, so recording
the final field values captures the mutation exactly. -/
structure AdapterResult where
  evaluationCompleted : Bool
  result : Option Value
  failure : Option String
deriving DecidableEq, Repr

/-- An adapter oracle: what resolving a given key/detail does.  The concrete
adapters below instantiate it; claims about engineered adapters quantify
over it. -/
abbrev Oracle := String → AsyncDetail → AdapterResult

/-- One entry of a `Parameters.parameter` list as read by `memberOfAsync`:
only `name` and `valueBoolean` are accessed. -/
structure ParamEntry where
  name : String
  valueBoolean : Option Bool
deriving DecidableEq, Repr

/-- The decoded JSON of a `$validate-code` response as read by
`memberOfAsync`: an optional `parameter` list (the `Parameters` reading) and
whether a truthy `issue` field is present (the `OperationOutcome` reading of
the same JSON). -/
structure VsJson where
  parameter : Option (List ParamEntry)
  issue : Bool
deriving DecidableEq, Repr

/-- Transport outcome of the `$validate-code` round trip (`fetch` plus
`response.json()`): a decoded body, or a thrown transport/decode error. -/
inductive VsTransport where
  | ok (j : VsJson)
  | fail (msg : String)
deriving DecidableEq, Repr

/-- `memberOfAsync` from `src/unnamed/part_001` (lines 282-357), with the
HTTP round trip abstracted by `transport`.  Mirrors the source: a request is
issued for a CodeableConcept with a present `coding` (POST), a string code
(GET), or a Coding with truthy `code` (GET) — a registered record always has
one of these shapes; a response whose `parameter` list holds an entry named
`"result"` completes the record with its `valueBoolean`; a response carrying
an `issue` field marks the record completed and throws, which the enclosing
catch turns into the structured `"Failed to check membership: <key>"`
failure; a transport/decode error takes the same catch path; a response with
neither a `"result"` parameter nor an `issue` leaves the record incomplete
and returns normally. -/
def memberOfAsyncModel (transport : VsTransport) (value : CodeData) (valueset : String) :
    AdapterResult :=
  let hasResponse : Bool :=
    match value with
    | .codeableConcept cc => cc.coding.isSome
    | .str _ => true
    | .coding c => jsTruthy c.code
  if !hasResponse then ⟨false, none, none⟩
  else
    match transport with
    | .fail _ =>
        ⟨true, none,
         some ("Failed to check membership: " ++ jsStr (createIndexKeyMemberOf value valueset))⟩
    | .ok j =>
        let found := (j.parameter.getD []).find? (fun p => p.name = "result")
        let completed1 := found.isSome
        let result1 := found.bind (fun p => p.valueBoolean.map Value.boolV)
        if j.issue then
          ⟨true, result1,
           some ("Failed to check membership: " ++ jsStr (createIndexKeyMemberOf value valueset))⟩
        else ⟨completed1, result1, none⟩

/-- Transport outcome of the reference fetch (`fetch` plus `response.json()`). -/
inductive FetchOutcome where
  | ok (body : Value)
  | fail (msg : String)
deriving DecidableEq, Repr

/-- `resolveAsync` from `src/unnamed/part_001` (lines 221-245): fetch the
reference URL; on success store the decoded body and complete; on a thrown
transport/decode error mark the record completed with no result and throw the
structured `"Failed to resolve reference: <URL>"` failure; do nothing when
the URL is falsy. -/
def resolveAsyncFetch (transport : FetchOutcome) (value : RefData) : AdapterResult :=
  match createIndexKeyResolve value with
  | some url =>
      if url = "" then ⟨false, none, none⟩
      else
        match transport with
        | .ok body => ⟨true, some body, none⟩
        | .fail _ => ⟨true, none, some ("Failed to resolve reference: " ++ url)⟩
  | none => ⟨false, none, none⟩

/-- `resolveAsync` from `src/unnamed/part_000` (lines 185-193): the mocked
reference-resolve adapter.  It always completes; a reference equal (by JS
strict string equality, so never a Reference object) to the one known mapping
resolves to an Organization resource, anything else resolves to `undefined`
("not found") without failing. -/
def resolveAsyncMock (value : RefData) : AdapterResult :=
  ⟨true,
   (match value with
    | .str s =>
        if s = "http://hl7.org/fhir/ValueSet/observation-vitalsignresult" then
          some (Value.resource "Organization" "1234")
        else none
    | .ref _ => none),
   none⟩

/-- One invocation of an interceptable function during a synchronous pass,
with its already-evaluated input collection and literal arguments. -/
inductive CallEvent where
  | memberOfCall (inputs : List CodeData) (valueset : String)
  | resolveCall (inputs : List RefData)
  | toAgeCall (inputs : List String)
deriving Repr

/-- `Array.prototype.map` with a state-threading callback: the fan-out of a
handler over its input collection, mutating the shared registry/flag. -/
def mapWithState {α β σ : Type} (f : σ → α → σ × β) : σ → List α → σ × List β
  | st, [] => (st, [])
  | st, a :: rest =>
      let fb := f st a
      let tail := mapWithState f fb.1 rest
      (tail.1, fb.2 :: tail.2)

/-- Run one intercepted call: fan the handler out over the input elements and
drop the `undefined` entries (the `.filter((v) => v !== undefined)` on every
handler in part_001).  `toAge` computes synchronously via `birthdateToAge`
and touches neither the registry nor the flag. -/
def runEvent (today : SimpleDate) (st : PassState) : CallEvent → PassState × List Value
  | .memberOfCall inputs valueset =>
      let mr := mapWithState (fun s cd => memberOfElement s valueset cd) st inputs
      (mr.1, mr.2.filterMap id)
  | .resolveCall inputs =>
      let mr := mapWithState (fun s rd => resolveElement s rd) st inputs
      (mr.1, mr.2.filterMap id)
  | .toAgeCall inputs =>
      (st, (inputs.map (fun s => (birthdateToAge today s).map Value.intV)).filterMap id)

/-- One synchronous evaluation pass: the evaluator traverses the expression
and invokes the interception handlers in traversal order, threading the
shared registry and incompleteness flag; the per-event handler outputs are
collected. -/
def runPass (today : SimpleDate) (st : PassState) (events : List CallEvent) :
    PassState × List (List Value) :=
  mapWithState (runEvent today) st events

/-- A deterministic synchronous evaluator (`fhirpath.evaluate`), specified by
the interceptable calls it makes during pass `n` and by how it assembles the
pass result from the handlers' outputs.  Pass numbering starts at 1. -/
structure EvaluatorModel where
  events : Nat → List CallEvent
  assemble : Nat → List (List Value) → List Value

/-- The loop state of `evaluateFhirpathAsync`.  `resolveLog` and
`passOutputs` are ghost instrumentation: the driver only ever appends to
them and never reads them, so they do not affect behavior; `resolveLog`
records, in order, the keys whose adapters were invoked. -/
structure DriverState where
  registry : Registry
  requiresAsyncProcessing : Bool
  iterations : Nat
  resolveLog : List String
  passOutputs : List (List (List Value))
  results : List Value
deriving DecidableEq, Repr

/-- The mutation one resolve-phase invocation leaves on a record: completed
records are skipped (`if (details && !details.evaluationCompleted)`), pending
records receive the adapter's completion flag and result. -/
def applyAdapterRec (oracle : Oracle) (k : String) (r : RecordData) : RecordData :=
  if r.evaluationCompleted then r
  else
    let a := oracle k r.detail
    { r with evaluationCompleted := a.evaluationCompleted, result := a.result }

/-- The resolve phase (part_001 lines 150-164): walk the registry in
insertion order, invoke the stored adapter of every not-completed record,
and join (`await Promise.all`).  Returns the eventual registry (every
invoked adapter's record mutation applied — the state all launched
invocations reach when they run to completion), the invoked keys in order,
and the surfaced rejection.  The rejection is taken first-in-insertion-order
here, which coincides with the source's temporally-first rejection whenever
at most one invoked adapter rejects — the only failure shape any claim
below relies on.  The registry observable at the very moment a rejection is
surfaced is schedule-dependent in the source (`Promise.all` rejects without
awaiting the sibling calls) and is modelled separately by
`registryAtRejection`. -/
def resolvePhase (oracle : Oracle) (reg : Registry) :
    Registry × List String × Option String :=
  let pending := reg.filter (fun kv => !kv.2.evaluationCompleted)
  (reg.map (fun kv => (kv.1, applyAdapterRec oracle kv.1 kv.2)),
   pending.map (fun kv => kv.1),
   (pending.filterMap (fun kv => (oracle kv.1 kv.2.detail).failure)).head?)

/-- The registry as observable at the moment the `Promise.all` join of one
resolve batch surfaces a rejection, under a temporal schedule `done`: the
invocations whose key satisfies `done` have already run (their record
mutations are applied), the other launched invocations are still in flight
and their records untouched.  JS fixes no schedule beyond the rejecting
invocation itself having run. -/
def registryAtRejection (oracle : Oracle) (done : String → Bool) (reg : Registry) :
    Registry :=
  reg.map (fun kv => if done kv.1 then (kv.1, applyAdapterRec oracle kv.1 kv.2) else kv)

/-- A schedule of a resolve batch is admissible for an observed rejection
when the rejecting invocation itself has run by the time the join observes
it; nothing is guaranteed about the other in-flight invocations. -/
def admissibleAtRejection (done : String → Bool) (failingKey : String) : Prop :=
  done failingKey = true

/-- The resolve half of one loop body: when the registry is non-empty, run
the resolve phase (a thrown adapter failure aborts the whole evaluation, a
clean phase clears `requiresAsyncProcessing`). -/
def resolveStep (oracle : Oracle) (st0 : DriverState) : Except String DriverState :=
  if st0.registry.length > 0 then
    match (resolvePhase oracle st0.registry).2.2 with
    | some f => .error f
    | none =>
        .ok { st0 with registry := (resolvePhase oracle st0.registry).1,
                       resolveLog := st0.resolveLog ++ (resolvePhase oracle st0.registry).2.1,
                       requiresAsyncProcessing := false }
  else .ok st0

/-- The evaluation half of one loop body: run one synchronous pass against
the current registry and take its results. -/
def passStep (today : SimpleDate) (m : EvaluatorModel) (st1 : DriverState) : DriverState :=
  let pr := runPass today ⟨st1.registry, st1.requiresAsyncProcessing⟩ (m.events st1.iterations)
  { st1 with registry := pr.1.registry,
             requiresAsyncProcessing := pr.1.requiresAsyncProcessing,
             passOutputs := st1.passOutputs ++ [pr.2],
             results := m.assemble st1.iterations pr.2 }

/-- One body of the do-while loop of `evaluateFhirpathAsync` (part_001 lines
147-182): bump the iteration counter, resolve pending calls, then re-evaluate. -/
def driverBody (oracle : Oracle) (today : SimpleDate) (m : EvaluatorModel)
    (st : DriverState) : Except String DriverState :=
  (resolveStep oracle { st with iterations := st.iterations + 1 }).map (passStep today m)

/-- The do-while loop `do { ... } while (requiresAsyncProcessing && iterations
< 10)`.  `fuel` is a structural bound only: started with fuel 10, the guard
`iterations < 10` makes the fuel-exhaustion branch unreachable, so the
recursion is exactly the source loop. -/
def driverGo (oracle : Oracle) (today : SimpleDate) (m : EvaluatorModel) :
    Nat → DriverState → Except String DriverState
  | 0, st => .ok st
  | fuel + 1, st =>
      match driverBody oracle today m st with
      | .error f => .error f
      | .ok st1 =>
          if st1.requiresAsyncProcessing ∧ st1.iterations < 10 then
            driverGo oracle today m fuel st1
          else .ok st1

/-- `evaluateFhirpathAsync` from `src/unnamed/part_001` (lines 51-189): run
the bounded fixpoint loop from a fresh, evaluation-scoped registry.  The
instrumented final state is returned; the function's actual JS return value
is the `results` field (see `evalResults`). -/
def evaluateFhirpathAsync (oracle : Oracle) (today : SimpleDate) (m : EvaluatorModel) :
    Except String DriverState :=
  driverGo oracle today m 10 ⟨[], false, 0, [], [], []⟩

/-- The value `evaluateFhirpathAsync` actually hands to its caller: the last
pass's result list on success, the thrown structured failure otherwise. -/
def evalResults (oracle : Oracle) (today : SimpleDate) (m : EvaluatorModel) :
    Except String (List Value) :=
  (evaluateFhirpathAsync oracle today m).map (fun st => st.results)

/-- `createIndexKey` from `src/utils/fhirpath-async.ts` (lines 27-38), the
early interception layer's fingerprint helper.  Unlike
`createIndexKeyMemberOf` it returns the empty string — not absence — when no
shape matches.  (On a present-but-empty coding list the JS `value.coding[0]`
access throws a TypeError; that path is modelled as `""` and no claim below
relies on it.) -/
def createIndexKey (value : CodeData) : String :=
  match value with
  | .str s => s
  | .coding c =>
      if jsTruthy c.code then jsStr c.system ++ "|" ++ jsStr c.code else ""
  | .codeableConcept cc =>
      match cc.coding with
      | some (c :: _) => jsStr c.system ++ "|" ++ jsStr c.code
      | some [] => ""
      | none => ""

/-- The registry of the early layer: `Map<string, boolean | undefined>`. -/
abbrev UtilsRegistry := List (String × Option Value)

/-- Pass-visible state of the early interception layer. -/
structure UtilsPassState where
  registry : UtilsRegistry
  requiresAsyncProcessing : Bool
deriving DecidableEq, Repr

/-- One element of the `memberOf` interception handler from
`src/utils/fhirpath-async.ts` (lines 70-84): the key is built unconditionally
(`createIndexKey(i) + " - " + valueset`), a cached defined value is returned,
and every other element — malformed or not — is queued as pending and marks
the pass incomplete. -/
def utilsMemberOfElement (st : UtilsPassState) (valueset : String) (i : CodeData) :
    UtilsPassState × Option Value :=
  let key := createIndexKey i ++ " - " ++ valueset
  match mapGet st.registry key with
  | some (some v) => (st, some v)
  | _ =>
      ({ registry := mapSet st.registry key none, requiresAsyncProcessing := true }, none)

/-! Concrete instantiations used by the scenario claims. -/

/-- A fixed "today" for the scenarios (the claims never depend on it). -/
def todayFixed : SimpleDate := ⟨2026, 10, 11⟩

/-- Evaluator assembling the pass result by flattening the handler outputs
(adequate for expressions whose result is exactly the intercepted calls'
output, as in the scenarios). -/
def flattenModel (ev : Nat → List CallEvent) : EvaluatorModel :=
  ⟨ev, fun _ outs => outs.flatten⟩

/-- An evaluator with no interceptable calls in any pass, returning a direct
output. -/
def directModel (out : List Value) : EvaluatorModel :=
  ⟨fun _ => [], fun _ _ => out⟩

/-- An adapter engineered to always complete with `true` (used to drive the
loop-bound and de-duplication claims). -/
def alwaysTrueOracle : Oracle := fun _ _ => ⟨true, some (.boolV true), none⟩

/-- An evaluator whose pass `n` invokes `memberOf` on a fresh code `c<n>`:
every pass introduces one new distinct fingerprint. -/
def freshFingerprintModel : EvaluatorModel :=
  flattenModel (fun n => [.memberOfCall [.str ("c" ++ toString n)] "VS"])

/-- The `{code: "M", system: "SYS"}` coding of the `memberOf` scenario. -/
def codingM : Coding := ⟨some "SYS", some "M"⟩

/-- A `$validate-code` response whose `result` parameter is `true`. -/
def vsOkTrue : VsJson := ⟨some [⟨"result", some true⟩], false⟩

/-- A `$validate-code` response with neither a `result` parameter nor an
`issue`: decodes fine but completes nothing. -/
def vsNoResult : VsJson := ⟨some [], false⟩

/-- The repository's own adapters with a transport always answering
`result = true` for membership and the mocked reference resolution. -/
def okTrueOracle : Oracle := fun _ d =>
  match d with
  | .memberOfData v vs => memberOfAsyncModel (.ok vsOkTrue) v vs
  | .resolveData v => resolveAsyncMock v

/-- The membership adapter against a server whose response never carries a
`result` parameter (nor an issue). -/
def noResultOracle : Oracle := fun _ d =>
  match d with
  | .memberOfData v vs => memberOfAsyncModel (.ok vsNoResult) v vs
  | .resolveData v => resolveAsyncMock v

/-- Adapters for the partial-failure scenario: the membership check for code
`"A"` hits a transport failure, every other call succeeds with `true`. -/
def c4Oracle : Oracle := fun _ d =>
  match d with
  | .memberOfData (.str "A") vs => memberOfAsyncModel (.fail "network down") (.str "A") vs
  | .memberOfData v vs => memberOfAsyncModel (.ok vsOkTrue) v vs
  | .resolveData v => resolveAsyncMock v

/-- Evaluator for the partial-failure scenario: two membership calls with
distinct fingerprints in every pass. -/
def c4Model : EvaluatorModel :=
  flattenModel (fun _ => [.memberOfCall [.str "A"] "VS", .memberOfCall [.str "B"] "VS"])

/-- The registry after the first pass of the partial-failure scenario. -/
def c4Reg1 : Registry :=
  [("MemberOf:A - VS", ⟨false, none, .memberOfData (.str "A") "VS"⟩),
   ("MemberOf:B - VS", ⟨false, none, .memberOfData (.str "B") "VS"⟩)]

/-- Evaluator invoking the same logical membership call (`SYS|M` in `VS1`)
from two call sites in every pass. -/
def c2Model : EvaluatorModel :=
  flattenModel (fun _ => [.memberOfCall [.coding codingM] "VS1",
                          .memberOfCall [.coding codingM] "VS1"])

/-- Evaluator of the `code.memberOf('VS1')` scenario: one membership call per
pass. -/
def c5Model : EvaluatorModel :=
  flattenModel (fun _ => [.memberOfCall [.coding codingM] "VS1"])

/-- Evaluator of the reference-resolution scenario: one `resolve` call on an
unknown URL per pass. -/
def c8Model : EvaluatorModel :=
  flattenModel (fun _ => [.resolveCall [.str "http://example/Organization/1"]])

/-- Evaluator re-issuing the same membership call every pass (used with
`noResultOracle`). -/
def c9Model : EvaluatorModel :=
  flattenModel (fun _ => [.memberOfCall [.str "A"] "VS"])

/-- A CodeableConcept with no `coding`: the canonical malformed `memberOf`
argument (`createIndexKeyMemberOf` returns absence for it). -/
def malformedCC : CodeData := .codeableConcept ⟨none⟩

/-- Evaluator using only the synchronous `toAge` interception. -/
def toAgeModel : EvaluatorModel :=
  flattenModel (fun _ => [.toAgeCall ["1990-05-10", "not-a-date"]])

/-- The completed membership record of the `SYS|M` in `VS1` scenarios. -/
def c2Record : RecordData :=
  ⟨true, some (.boolV true), .memberOfData (.coding codingM) "VS1"⟩

/-- The final driver state of running `c2Model` against a completing
membership adapter answering `true`. -/
def c2Final : DriverState :=
  ⟨[("MemberOf:SYS|M - VS1", c2Record)], false, 2, ["MemberOf:SYS|M - VS1"],
   [[[], []], [[.boolV true], [.boolV true]]], [.boolV true, .boolV true]⟩

/-- A one-record registry whose only record is completed (used to witness
the stability claims). -/
def c3Reg : Registry := [("MemberOf:SYS|M - VS1", c2Record)]

/-! Invariant predicates for the registry and the driver loop. -/

/-- The registry invariant of a JS `Map`: no duplicate keys. -/
def keysNodup {α : Type} (reg : List (String × α)) : Prop :=
  (reg.map Prod.fst).Nodup

/-- An oracle is completing when every invocation marks its record
completed (every adapter invocation either completes the record or aborts
the evaluation). -/
def completingOracle (o : Oracle) : Prop :=
  ∀ k d, (o k d).evaluationCompleted = true

/-- Every key whose adapter has been invoked owns a completed record. -/
def CompletedStable (reg : Registry) (log : List String) : Prop :=
  ∀ fp, fp ∈ log → ∃ r, mapGet reg fp = some r ∧ r.evaluationCompleted = true

/-- The loop invariant of the driver: well-formed registry, no key invoked
twice, invoked keys completed. -/
def DriverInv (st : DriverState) : Prop :=
  keysNodup st.registry ∧ st.resolveLog.Nodup ∧ CompletedStable st.registry st.resolveLog

/-! Helper lemmas: the JS `Map` embedding. -/

theorem mapGet_mapSet_self {α : Type} (reg : List (String × α)) (k : String) (v : α) :
    mapGet (mapSet reg k v) k = some v := by
  induction reg with
  | nil => simp [mapGet, mapSet]
  | cons kv rest ih =>
      by_cases h : kv.1 = k
      · simp [mapGet, mapSet, h]
      · simp [mapGet, mapSet, h, ih]

theorem mapGet_mapSet_ne {α : Type} (reg : List (String × α)) (k k' : String) (v : α)
    (h : k' ≠ k) : mapGet (mapSet reg k v) k' = mapGet reg k' := by
  have h' : ¬ k = k' := fun hh => h hh.symm
  induction reg with
  | nil => simp [mapGet, mapSet, h']
  | cons kv rest ih =>
      by_cases hk : kv.1 = k
      · have hkk' : ¬ kv.1 = k' := by rw [hk]; exact h'
        simp [mapGet, mapSet, hk, h', hkk']
      · by_cases hk' : kv.1 = k'
        · simp [mapGet, mapSet, hk, hk', h]
        · simp [mapGet, mapSet, hk, hk', ih]

theorem keys_mapSet_mem {α : Type} (reg : List (String × α)) (k : String) (v : α)
    (h : k ∈ reg.map Prod.fst) :
    (mapSet reg k v).map Prod.fst = reg.map Prod.fst := by
  induction reg with
  | nil => simp at h
  | cons kv rest ih =>
      by_cases hk : kv.1 = k
      · simp [mapSet, hk]
      · have : k ∈ rest.map Prod.fst := by
          rcases (by simpa using h) with h1 | h1
          · exact absurd h1.symm hk
          · simpa using h1
        simp [mapSet, hk, ih this]

theorem keys_mapSet_not_mem {α : Type} (reg : List (String × α)) (k : String) (v : α)
    (h : k ∉ reg.map Prod.fst) :
    (mapSet reg k v).map Prod.fst = reg.map Prod.fst ++ [k] := by
  induction reg with
  | nil => simp [mapSet]
  | cons kv rest ih =>
      have hk : kv.1 ≠ k := by
        intro hh
        exact h (by simp [hh])
      have : k ∉ rest.map Prod.fst := by
        intro hh
        exact h (by simp [hh])
      simp [mapSet, hk, ih this]

theorem keysNodup_mapSet {α : Type} (reg : List (String × α)) (k : String) (v : α)
    (h : keysNodup reg) : keysNodup (mapSet reg k v) := by
  unfold keysNodup at *
  by_cases hm : k ∈ reg.map Prod.fst
  · rw [keys_mapSet_mem reg k v hm]; exact h
  · rw [keys_mapSet_not_mem reg k v hm]
    exact List.Nodup.append h (List.nodup_singleton k)
      (List.disjoint_singleton.mpr hm)

theorem mapGet_of_mem_nodup {α : Type} (reg : List (String × α)) (k : String) (r : α)
    (hn : keysNodup reg) (hm : (k, r) ∈ reg) : mapGet reg k = some r := by
  induction reg with
  | nil => simp at hm
  | cons kv rest ih =>
      unfold keysNodup at hn
      simp only [List.map_cons, List.nodup_cons] at hn
      rw [List.mem_cons] at hm
      rcases hm with hm | hm
      · simp [mapGet, ← hm]
      · have hk : kv.1 ≠ k := by
          intro hh
          apply hn.1
          rw [hh]
          exact List.mem_map_of_mem Prod.fst hm
        simp [mapGet, hk, ih hn.2 hm]

theorem mapGet_map_entry {α β : Type} (g : String → α → β) (reg : List (String × α))
    (k : String) :
    mapGet (reg.map (fun kv => (kv.1, g kv.1 kv.2))) k = (mapGet reg k).map (g k) := by
  induction reg with
  | nil => simp [mapGet]
  | cons kv rest ih =>
      by_cases hk : kv.1 = k
      · subst hk; simp [mapGet]
      · simp [mapGet, hk, ih]

/-! Helper lemmas: interception handlers never disturb completed records. -/

theorem handlerElement_keysNodup (st : PassState) (key : String) (fd : AsyncDetail)
    (h : keysNodup st.registry) : keysNodup ((handlerElement st key fd).1).registry := by
  unfold handlerElement
  match hg : mapGet st.registry key with
  | some r =>
      by_cases hc : r.evaluationCompleted
      · simpa [hg, hc] using h
      · simpa [hg, hc] using keysNodup_mapSet _ _ _ h
  | none => simpa [hg] using keysNodup_mapSet _ _ _ h

theorem handlerElement_preserve (st : PassState) (key : String) (fd : AsyncDetail)
    (fp : String) (r : RecordData) (hfp : mapGet st.registry fp = some r)
    (hc : r.evaluationCompleted = true) :
    mapGet ((handlerElement st key fd).1).registry fp = some r := by
  unfold handlerElement
  by_cases hkey : key = fp
  · subst hkey
    simp [hfp, hc]
  · match hg : mapGet st.registry key with
    | some r' =>
        by_cases hc' : r'.evaluationCompleted
        · simpa [hg, hc'] using hfp
        · simpa [hg, hc'] using (mapGet_mapSet_ne st.registry key fp _ (fun hh => hkey hh.symm)).trans hfp
    | none => simpa [hg] using (mapGet_mapSet_ne st.registry key fp _ (fun hh => hkey hh.symm)).trans hfp

theorem handlerElement_cached (st : PassState) (key : String) (fd : AsyncDetail)
    (r : RecordData) (hfp : mapGet st.registry key = some r)
    (hc : r.evaluationCompleted = true) :
    handlerElement st key fd = (st, r.result) := by
  unfold handlerElement
  simp [hfp, hc]

theorem memberOfElement_keysNodup (st : PassState) (vs : String) (cd : CodeData)
    (h : keysNodup st.registry) : keysNodup ((memberOfElement st vs cd).1).registry := by
  unfold memberOfElement
  match hk : createIndexKeyMemberOf cd vs with
  | some key0 =>
      by_cases he : key0 = ""
      · simpa [he] using h
      · simpa [he] using handlerElement_keysNodup st ("MemberOf:" ++ key0) _ h
  | none => simpa using h

theorem memberOfElement_preserve (st : PassState) (vs : String) (cd : CodeData)
    (fp : String) (r : RecordData) (hfp : mapGet st.registry fp = some r)
    (hc : r.evaluationCompleted = true) :
    mapGet ((memberOfElement st vs cd).1).registry fp = some r := by
  unfold memberOfElement
  match hk : createIndexKeyMemberOf cd vs with
  | some key0 =>
      by_cases he : key0 = ""
      · simpa [he] using hfp
      · simpa [he] using handlerElement_preserve st ("MemberOf:" ++ key0) _ fp r hfp hc
  | none => simpa using hfp

theorem resolveElement_keysNodup (st : PassState) (rd : RefData)
    (h : keysNodup st.registry) : keysNodup ((resolveElement st rd).1).registry := by
  unfold resolveElement
  match hk : createIndexKeyResolve rd with
  | some key0 =>
      by_cases he : key0 = ""
      · simpa [he] using h
      · simpa [he] using handlerElement_keysNodup st ("Resolve:" ++ key0) _ h
  | none => simpa using h

theorem resolveElement_preserve (st : PassState) (rd : RefData)
    (fp : String) (r : RecordData) (hfp : mapGet st.registry fp = some r)
    (hc : r.evaluationCompleted = true) :
    mapGet ((resolveElement st rd).1).registry fp = some r := by
  unfold resolveElement
  match hk : createIndexKeyResolve rd with
  | some key0 =>
      by_cases he : key0 = ""
      · simpa [he] using hfp
      · simpa [he] using handlerElement_preserve st ("Resolve:" ++ key0) _ fp r hfp hc
  | none => simpa using hfp

theorem mapWithState_fst_preserve {α β σ : Type} (f : σ → α → σ × β) (P : σ → Prop)
    (hf : ∀ s a, P s → P (f s a).1) (l : List α) (s : σ) (hs : P s) :
    P (mapWithState f s l).1 := by
  induction l generalizing s with
  | nil => simpa [mapWithState] using hs
  | cons a rest ih => exact ih (f s a).1 (hf s a hs)

theorem runEvent_keysNodup (today : SimpleDate) (st : PassState) (e : CallEvent)
    (h : keysNodup st.registry) : keysNodup ((runEvent today st e).1).registry := by
  cases e with
  | memberOfCall inputs vs =>
      exact mapWithState_fst_preserve _ (fun s => keysNodup s.registry)
        (fun s cd hs => memberOfElement_keysNodup s vs cd hs) inputs st h
  | resolveCall inputs =>
      exact mapWithState_fst_preserve _ (fun s => keysNodup s.registry)
        (fun s rd hs => resolveElement_keysNodup s rd hs) inputs st h
  | toAgeCall inputs => exact h

theorem runEvent_preserve (today : SimpleDate) (st : PassState) (e : CallEvent)
    (fp : String) (r : RecordData) (hfp : mapGet st.registry fp = some r)
    (hc : r.evaluationCompleted = true) :
    mapGet ((runEvent today st e).1).registry fp = some r := by
  cases e with
  | memberOfCall inputs vs =>
      exact mapWithState_fst_preserve _ (fun s => mapGet s.registry fp = some r)
        (fun s cd hs => memberOfElement_preserve s vs cd fp r hs hc) inputs st hfp
  | resolveCall inputs =>
      exact mapWithState_fst_preserve _ (fun s => mapGet s.registry fp = some r)
        (fun s rd hs => resolveElement_preserve s rd fp r hs hc) inputs st hfp
  | toAgeCall inputs => exact hfp

theorem runPass_keysNodup (today : SimpleDate) (st : PassState) (events : List CallEvent)
    (h : keysNodup st.registry) : keysNodup ((runPass today st events).1).registry :=
  mapWithState_fst_preserve _ (fun s => keysNodup s.registry)
    (fun s e hs => runEvent_keysNodup today s e hs) events st h

theorem runPass_preserve (today : SimpleDate) (st : PassState) (events : List CallEvent)
    (fp : String) (r : RecordData) (hfp : mapGet st.registry fp = some r)
    (hc : r.evaluationCompleted = true) :
    mapGet ((runPass today st events).1).registry fp = some r :=
  mapWithState_fst_preserve _ (fun s => mapGet s.registry fp = some r)
    (fun s e hs => runEvent_preserve today s e fp r hs hc) events st hfp

/-! Helper lemmas: the resolve phase. -/

theorem resolvePhase_fst (o : Oracle) (reg : Registry) :
    (resolvePhase o reg).1 = reg.map (fun kv => (kv.1, applyAdapterRec o kv.1 kv.2)) := rfl

theorem mapGet_resolvePhase (o : Oracle) (reg : Registry) (k : String) :
    mapGet (resolvePhase o reg).1 k = (mapGet reg k).map (applyAdapterRec o k) := by
  rw [resolvePhase_fst]
  exact mapGet_map_entry (applyAdapterRec o) reg k

theorem resolvePhase_keysNodup (o : Oracle) (reg : Registry) (h : keysNodup reg) :
    keysNodup (resolvePhase o reg).1 := by
  unfold keysNodup at *
  rw [resolvePhase_fst]
  simpa [List.map_map, Function.comp] using h

theorem resolvePhase_preserve (o : Oracle) (reg : Registry) (fp : String) (r : RecordData)
    (hfp : mapGet reg fp = some r) (hc : r.evaluationCompleted = true) :
    mapGet (resolvePhase o reg).1 fp = some r := by
  rw [mapGet_resolvePhase, hfp]
  simp [applyAdapterRec, hc]

theorem mem_resolvePhase_invoked (o : Oracle) (reg : Registry) (fp : String) :
    fp ∈ (resolvePhase o reg).2.1 ↔
      ∃ r, (fp, r) ∈ reg ∧ r.evaluationCompleted = false := by
  unfold resolvePhase
  simp only [List.mem_map, List.mem_filter, Bool.not_eq_true']
  constructor
  · rintro ⟨kv, ⟨hmem, hpend⟩, hkey⟩
    exact ⟨kv.2, by rwa [← hkey, Prod.mk.eta], hpend⟩
  · rintro ⟨r, hmem, hpend⟩
    exact ⟨(fp, r), ⟨hmem, hpend⟩, rfl⟩

theorem not_invoked_of_completed (o : Oracle) (reg : Registry) (fp : String) (r : RecordData)
    (hn : keysNodup reg) (hfp : mapGet reg fp = some r) (hc : r.evaluationCompleted = true) :
    fp ∉ (resolvePhase o reg).2.1 := by
  rw [mem_resolvePhase_invoked]
  rintro ⟨r', hmem, hpend⟩
  have := mapGet_of_mem_nodup reg fp r' hn hmem
  rw [hfp] at this
  injection this with hr
  rw [← hr] at hpend
  rw [hc] at hpend
  exact Bool.noConfusion hpend

theorem resolvePhase_invoked_nodup (o : Oracle) (reg : Registry) (hn : keysNodup reg) :
    ((resolvePhase o reg).2.1).Nodup := by
  unfold resolvePhase
  have hsub : List.Sublist
      ((reg.filter (fun kv => !kv.2.evaluationCompleted)).map (fun kv => kv.1))
      (reg.map (fun kv => kv.1)) :=
    List.Sublist.map _ (List.filter_sublist reg)
  exact List.Nodup.sublist hsub hn

theorem resolvePhase_invoked_completed (o : Oracle) (reg : Registry) (fp : String)
    (hn : keysNodup reg) (hco : completingOracle o) (hm : fp ∈ (resolvePhase o reg).2.1) :
    ∃ r', mapGet (resolvePhase o reg).1 fp = some r' ∧ r'.evaluationCompleted = true := by
  rw [mem_resolvePhase_invoked] at hm
  obtain ⟨r, hmem, hpend⟩ := hm
  have hget := mapGet_of_mem_nodup reg fp r hn hmem
  refine ⟨applyAdapterRec o fp r, ?_, ?_⟩
  · rw [mapGet_resolvePhase, hget]; rfl
  · unfold applyAdapterRec
    rw [hpend]
    simpa using hco fp r.detail

/-! Helper lemmas: the driver loop. -/

theorem resolveStep_ok_elim (o : Oracle) (st0 st1 : DriverState)
    (h : resolveStep o st0 = .ok st1) :
    st1 = st0 ∨
    (st1.registry = (resolvePhase o st0.registry).1 ∧
     st1.resolveLog = st0.resolveLog ++ (resolvePhase o st0.registry).2.1 ∧
     st1.requiresAsyncProcessing = false ∧
     st1.iterations = st0.iterations ∧
     st1.passOutputs = st0.passOutputs ∧
     st1.results = st0.results) := by
  unfold resolveStep at h
  by_cases hlen : st0.registry.length > 0
  · rw [if_pos hlen] at h
    cases hrp : (resolvePhase o st0.registry).2.2 with
    | some f => rw [hrp] at h; cases h
    | none =>
        rw [hrp] at h
        injection h with h1
        right
        rw [← h1]
        exact ⟨rfl, rfl, rfl, rfl, rfl, rfl⟩
  · rw [if_neg hlen] at h
    injection h with h1
    left
    exact h1.symm

theorem resolveStep_preserve (o : Oracle) (st0 st1 : DriverState) (fp : String)
    (r : RecordData) (hn : keysNodup st0.registry) (hfp : mapGet st0.registry fp = some r)
    (hc : r.evaluationCompleted = true) (h : resolveStep o st0 = .ok st1) :
    keysNodup st1.registry ∧ mapGet st1.registry fp = some r ∧
    st1.resolveLog.count fp = st0.resolveLog.count fp := by
  rcases resolveStep_ok_elim o st0 st1 h with h1 | ⟨hreg, hlog, _, _, _, _⟩
  · rw [h1]; exact ⟨hn, hfp, rfl⟩
  · refine ⟨?_, ?_, ?_⟩
    · rw [hreg]; exact resolvePhase_keysNodup o st0.registry hn
    · rw [hreg]; exact resolvePhase_preserve o st0.registry fp r hfp hc
    · rw [hlog, List.count_append]
      have : (resolvePhase o st0.registry).2.1.count fp = 0 :=
        List.count_eq_zero.mpr (not_invoked_of_completed o st0.registry fp r hn hfp hc)
      omega

theorem passStep_registry (today : SimpleDate) (m : EvaluatorModel) (st1 : DriverState) :
    (passStep today m st1).registry =
      ((runPass today ⟨st1.registry, st1.requiresAsyncProcessing⟩
          (m.events st1.iterations)).1).registry := rfl

theorem passStep_resolveLog (today : SimpleDate) (m : EvaluatorModel) (st1 : DriverState) :
    (passStep today m st1).resolveLog = st1.resolveLog := rfl

theorem passStep_iterations (today : SimpleDate) (m : EvaluatorModel) (st1 : DriverState) :
    (passStep today m st1).iterations = st1.iterations := rfl

theorem passStep_preserve (today : SimpleDate) (m : EvaluatorModel) (st1 : DriverState)
    (fp : String) (r : RecordData) (hn : keysNodup st1.registry)
    (hfp : mapGet st1.registry fp = some r) (hc : r.evaluationCompleted = true) :
    keysNodup (passStep today m st1).registry ∧
    mapGet (passStep today m st1).registry fp = some r := by
  rw [passStep_registry]
  exact ⟨runPass_keysNodup today _ _ hn, runPass_preserve today _ _ fp r hfp hc⟩

theorem driverBody_ok_elim (o : Oracle) (today : SimpleDate) (m : EvaluatorModel)
    (st st1 : DriverState) (h : driverBody o today m st = .ok st1) :
    ∃ st2, resolveStep o { st with iterations := st.iterations + 1 } = .ok st2 ∧
           st1 = passStep today m st2 := by
  unfold driverBody at h
  cases hr : resolveStep o { st with iterations := st.iterations + 1 } with
  | error f => rw [hr] at h; cases h
  | ok st2 =>
      rw [hr] at h
      simp only [Except.map] at h
      injection h with h1
      exact ⟨st2, rfl, h1.symm⟩

theorem driverBody_preserve (o : Oracle) (today : SimpleDate) (m : EvaluatorModel)
    (st st1 : DriverState) (fp : String) (r : RecordData)
    (hn : keysNodup st.registry) (hfp : mapGet st.registry fp = some r)
    (hc : r.evaluationCompleted = true) (h : driverBody o today m st = .ok st1) :
    keysNodup st1.registry ∧ mapGet st1.registry fp = some r ∧
    st1.resolveLog.count fp = st.resolveLog.count fp := by
  obtain ⟨st2, hr, hp⟩ := driverBody_ok_elim o today m st st1 h
  have h2 := resolveStep_preserve o { st with iterations := st.iterations + 1 } st2 fp r hn hfp hc hr
  have h3 := passStep_preserve today m st2 fp r h2.1 h2.2.1 hc
  rw [hp]
  exact ⟨h3.1, h3.2, by rw [passStep_resolveLog]; exact h2.2.2⟩

theorem driverGo_preserve (o : Oracle) (today : SimpleDate) (m : EvaluatorModel) :
    ∀ (fuel : Nat) (st st1 : DriverState) (fp : String) (r : RecordData),
    keysNodup st.registry → mapGet st.registry fp = some r →
    r.evaluationCompleted = true → driverGo o today m fuel st = .ok st1 →
    mapGet st1.registry fp = some r ∧
    st1.resolveLog.count fp = st.resolveLog.count fp := by
  intro fuel
  induction fuel with
  | zero =>
      intro st st1 fp r _ hfp _ h
      injection h with h1
      rw [← h1]
      exact ⟨hfp, rfl⟩
  | succ n ih =>
      intro st st1 fp r hn hfp hc h
      unfold driverGo at h
      cases hb : driverBody o today m st with
      | error f => rw [hb] at h; cases h
      | ok st2 =>
          rw [hb] at h
          replace h : (if st2.requiresAsyncProcessing ∧ st2.iterations < 10 then
              driverGo o today m n st2 else Except.ok st2) = Except.ok st1 := h
          have h2 := driverBody_preserve o today m st st2 fp r hn hfp hc hb
          by_cases hcond : st2.requiresAsyncProcessing ∧ st2.iterations < 10
          · rw [if_pos hcond] at h
            have h3 := ih st2 st1 fp r h2.1 h2.2.1 hc h
            exact ⟨h3.1, h3.2.trans h2.2.2⟩
          · rw [if_neg hcond] at h
            injection h with h1
            rw [← h1]
            exact ⟨h2.2.1, h2.2.2⟩

theorem driverBody_iterations (o : Oracle) (today : SimpleDate) (m : EvaluatorModel)
    (st st1 : DriverState) (h : driverBody o today m st = .ok st1) :
    st1.iterations = st.iterations + 1 := by
  obtain ⟨st2, hr, hp⟩ := driverBody_ok_elim o today m st st1 h
  rcases resolveStep_ok_elim o _ st2 hr with h1 | ⟨_, _, _, hit, _, _⟩
  · rw [hp, passStep_iterations, h1]
  · rw [hp, passStep_iterations, hit]

theorem driverGo_iterations_le (o : Oracle) (today : SimpleDate) (m : EvaluatorModel) :
    ∀ (fuel : Nat) (st st1 : DriverState), driverGo o today m fuel st = .ok st1 →
    st1.iterations ≤ st.iterations + fuel := by
  intro fuel
  induction fuel with
  | zero =>
      intro st st1 h
      injection h with h1
      rw [← h1]
      omega
  | succ n ih =>
      intro st st1 h
      unfold driverGo at h
      cases hb : driverBody o today m st with
      | error f => rw [hb] at h; cases h
      | ok st2 =>
          rw [hb] at h
          replace h : (if st2.requiresAsyncProcessing ∧ st2.iterations < 10 then
              driverGo o today m n st2 else Except.ok st2) = Except.ok st1 := h
          have hit := driverBody_iterations o today m st st2 hb
          by_cases hcond : st2.requiresAsyncProcessing ∧ st2.iterations < 10
          · rw [if_pos hcond] at h
            have := ih st2 st1 h
            omega
          · rw [if_neg hcond] at h
            injection h with h1
            rw [← h1]
            omega

/-! Helper lemmas: the de-duplication invariant (a completing adapter is
invoked at most once per fingerprint). -/

theorem passStep_inv (today : SimpleDate) (m : EvaluatorModel) (st1 : DriverState)
    (hinv : DriverInv st1) : DriverInv (passStep today m st1) := by
  obtain ⟨hk, hlog, hcs⟩ := hinv
  refine ⟨?_, ?_, ?_⟩
  · rw [passStep_registry]
    exact runPass_keysNodup today _ _ hk
  · rw [passStep_resolveLog]
    exact hlog
  · intro fp hfp
    rw [passStep_resolveLog] at hfp
    obtain ⟨r, hget, hc⟩ := hcs fp hfp
    refine ⟨r, ?_, hc⟩
    rw [passStep_registry]
    exact runPass_preserve today _ _ fp r hget hc

theorem resolveStep_inv (o : Oracle) (st0 st1 : DriverState) (hco : completingOracle o)
    (hinv : DriverInv st0) (h : resolveStep o st0 = .ok st1) : DriverInv st1 := by
  obtain ⟨hk, hlog, hcs⟩ := hinv
  rcases resolveStep_ok_elim o st0 st1 h with h1 | ⟨hreg, hlg, _, _, _, _⟩
  · rw [h1]; exact ⟨hk, hlog, hcs⟩
  · refine ⟨?_, ?_, ?_⟩
    · rw [hreg]
      exact resolvePhase_keysNodup o st0.registry hk
    · rw [hlg]
      refine List.Nodup.append hlog (resolvePhase_invoked_nodup o st0.registry hk) ?_
      intro fp hmemLog hmemInv
      obtain ⟨r, hget, hc⟩ := hcs fp hmemLog
      exact not_invoked_of_completed o st0.registry fp r hk hget hc hmemInv
    · intro fp hfp
      rw [hlg] at hfp
      rw [List.mem_append] at hfp
      rcases hfp with hfp | hfp
      · obtain ⟨r, hget, hc⟩ := hcs fp hfp
        refine ⟨r, ?_, hc⟩
        rw [hreg]
        exact resolvePhase_preserve o st0.registry fp r hget hc
      · obtain ⟨r', hget, hc⟩ := resolvePhase_invoked_completed o st0.registry fp hk hco hfp
        refine ⟨r', ?_, hc⟩
        rw [hreg]
        exact hget

theorem driverBody_inv (o : Oracle) (today : SimpleDate) (m : EvaluatorModel)
    (st st1 : DriverState) (hco : completingOracle o) (hinv : DriverInv st)
    (h : driverBody o today m st = .ok st1) : DriverInv st1 := by
  obtain ⟨st2, hr, hp⟩ := driverBody_ok_elim o today m st st1 h
  have hinv0 : DriverInv { st with iterations := st.iterations + 1 } := hinv
  have h2 := resolveStep_inv o _ st2 hco hinv0 hr
  rw [hp]
  exact passStep_inv today m st2 h2

theorem driverGo_inv (o : Oracle) (today : SimpleDate) (m : EvaluatorModel)
    (hco : completingOracle o) :
    ∀ (fuel : Nat) (st st1 : DriverState), DriverInv st →
    driverGo o today m fuel st = .ok st1 → DriverInv st1 := by
  intro fuel
  induction fuel with
  | zero =>
      intro st st1 hinv h
      injection h with h1
      rw [← h1]
      exact hinv
  | succ n ih =>
      intro st st1 hinv h
      unfold driverGo at h
      cases hb : driverBody o today m st with
      | error f => rw [hb] at h; cases h
      | ok st2 =>
          rw [hb] at h
          replace h : (if st2.requiresAsyncProcessing ∧ st2.iterations < 10 then
              driverGo o today m n st2 else Except.ok st2) = Except.ok st1 := h
          have h2 := driverBody_inv o today m st st2 hco hinv hb
          by_cases hcond : st2.requiresAsyncProcessing ∧ st2.iterations < 10
          · rw [if_pos hcond] at h
            exact ih st2 st1 h2 h
          · rw [if_neg hcond] at h
            injection h with h1
            rw [← h1]
            exact h2

theorem evaluateFhirpathAsync_log_nodup (o : Oracle) (today : SimpleDate)
    (m : EvaluatorModel) (st1 : DriverState) (hco : completingOracle o)
    (h : evaluateFhirpathAsync o today m = .ok st1) : st1.resolveLog.Nodup := by
  have hinit : DriverInv ⟨[], false, 0, [], [], []⟩ := by
    refine ⟨List.nodup_nil, List.nodup_nil, ?_⟩
    intro fp hfp
    simp at hfp
  exact (driverGo_inv o today m hco 10 _ st1 hinit h).2.1

/-! Helper lemmas: single-pass runs and fan-out independence. -/

theorem driverGo_ten_unfold (o : Oracle) (today : SimpleDate) (m : EvaluatorModel)
    (st : DriverState) :
    driverGo o today m 10 st =
      match driverBody o today m st with
      | .error f => .error f
      | .ok st1 =>
          if st1.requiresAsyncProcessing ∧ st1.iterations < 10 then
            driverGo o today m 9 st1
          else .ok st1 := rfl

theorem driver_one_pass (o : Oracle) (today : SimpleDate) (m : EvaluatorModel)
    (hp : (runPass today ⟨[], false⟩ (m.events 1)).1 = ⟨[], false⟩) :
    evaluateFhirpathAsync o today m =
      .ok ⟨[], false, 1, [], [(runPass today ⟨[], false⟩ (m.events 1)).2],
           m.assemble 1 ((runPass today ⟨[], false⟩ (m.events 1)).2)⟩ := by
  have hb : driverBody o today m ⟨[], false, 0, [], [], []⟩ =
      .ok ⟨[], false, 1, [], [(runPass today ⟨[], false⟩ (m.events 1)).2],
           m.assemble 1 ((runPass today ⟨[], false⟩ (m.events 1)).2)⟩ := by
    show Except.ok (passStep today m ⟨[], false, 1, [], [], []⟩) = _
    unfold passStep
    simp only [hp, List.nil_append]
  unfold evaluateFhirpathAsync
  rw [driverGo_ten_unfold, hb]
  simp

theorem runEvent_toAge_fst (today : SimpleDate) (st : PassState) (inputs : List String) :
    (runEvent today st (.toAgeCall inputs)).1 = st := rfl

theorem runPass_toAge_fix (today : SimpleDate) :
    ∀ (events : List CallEvent) (st : PassState),
    (∀ e ∈ events, ∃ inputs, e = .toAgeCall inputs) →
    (runPass today st events).1 = st := by
  intro events
  induction events with
  | nil => intro st _; rfl
  | cons e rest ih =>
      intro st h
      obtain ⟨inputs, he⟩ := h e (by simp)
      subst he
      have hrest : ∀ e ∈ rest, ∃ inputs, e = CallEvent.toAgeCall inputs :=
        fun e hme => h e (by simp [hme])
      show (mapWithState (runEvent today)
        ((runEvent today st (.toAgeCall inputs)).1) rest).1 = st
      rw [runEvent_toAge_fst]
      exact ih st hrest

theorem mapWithState_append {α β σ : Type} (f : σ → α → σ × β) (l1 l2 : List α) (s : σ) :
    mapWithState f s (l1 ++ l2) =
      ((mapWithState f (mapWithState f s l1).1 l2).1,
       (mapWithState f s l1).2 ++ (mapWithState f (mapWithState f s l1).1 l2).2) := by
  induction l1 generalizing s with
  | nil => simp [mapWithState]
  | cons a rest ih => simp [mapWithState, ih]

theorem memberOfElement_malformed (st : PassState) (vs : String) (cd : CodeData)
    (h : createIndexKeyMemberOf cd vs = none) : memberOfElement st vs cd = (st, none) := by
  unfold memberOfElement
  rw [h]

theorem resolveElement_malformed (st : PassState) (rd : RefData)
    (h : createIndexKeyResolve rd = none) : resolveElement st rd = (st, none) := by
  unfold resolveElement
  rw [h]

theorem runEvent_memberOf_skip (today : SimpleDate) (st : PassState) (vs : String)
    (xs ys : List CodeData) (cd : CodeData) (h : createIndexKeyMemberOf cd vs = none) :
    runEvent today st (.memberOfCall (xs ++ cd :: ys) vs) =
      runEvent today st (.memberOfCall (xs ++ ys) vs) := by
  show ((mapWithState (fun s c => memberOfElement s vs c) st (xs ++ cd :: ys)).1,
        (mapWithState (fun s c => memberOfElement s vs c) st (xs ++ cd :: ys)).2.filterMap id) =
       ((mapWithState (fun s c => memberOfElement s vs c) st (xs ++ ys)).1,
        (mapWithState (fun s c => memberOfElement s vs c) st (xs ++ ys)).2.filterMap id)
  rw [mapWithState_append, mapWithState_append]
  have hmid : ∀ s : PassState,
      mapWithState (fun s c => memberOfElement s vs c) s (cd :: ys) =
        ((mapWithState (fun s c => memberOfElement s vs c) s ys).1,
         none :: (mapWithState (fun s c => memberOfElement s vs c) s ys).2) := by
    intro s
    show ((mapWithState _ (memberOfElement s vs cd).1 ys).1,
          (memberOfElement s vs cd).2 :: (mapWithState _ (memberOfElement s vs cd).1 ys).2) = _
    rw [memberOfElement_malformed s vs cd h]
  rw [hmid]
  simp

/-! Claim theorems. -/

/-- C1 (counterexample): the claim's second half fails on the code.  An
adapter/evaluator pair that introduces a new distinct fingerprint on each
pass makes the driver stop after exactly 10 passes with pending work still
outstanding — but the bounded/incomplete outcome is NOT surfaced as a
distinct reported outcome: the caller-visible return value is a plain
successful result list, literally identical to the return of a genuinely
complete single-pass run. -/
theorem c1_counterexample :
    evalResults alwaysTrueOracle todayFixed freshFingerprintModel = Except.ok [] ∧
    (evaluateFhirpathAsync alwaysTrueOracle todayFixed freshFingerprintModel).map
        (fun st => (st.iterations, st.requiresAsyncProcessing)) = Except.ok (10, true) ∧
    evalResults alwaysTrueOracle todayFixed (directModel []) = Except.ok [] ∧
    (evaluateFhirpathAsync alwaysTrueOracle todayFixed (directModel [])).map
        (fun st => (st.iterations, st.requiresAsyncProcessing)) = Except.ok (1, false) :=
  ⟨rfl, rfl, rfl, rfl⟩

/-- C1 (amended): the driver performs at most 10 evaluation passes for every
adapter and evaluator, and the always-fresh-fingerprint adapter makes it stop
after exactly 10 passes with `requiresAsyncProcessing` still set; the bounded
outcome, however, is returned as the ordinary (partial) result list of the
last pass — only a debug log distinguishes it, not the returned value. -/
theorem c1_iteration_bound :
    (∀ (o : Oracle) (today : SimpleDate) (m : EvaluatorModel) (st : DriverState),
        evaluateFhirpathAsync o today m = Except.ok st → st.iterations ≤ 10) ∧
    (evaluateFhirpathAsync alwaysTrueOracle todayFixed freshFingerprintModel).map
        (fun st => (st.iterations, st.requiresAsyncProcessing, st.results)) =
      Except.ok (10, true, []) := by
  constructor
  · intro o today m st h
    have := driverGo_iterations_le o today m 10 ⟨[], false, 0, [], [], []⟩ st h
    simpa using this
  · rfl

/-- C1 (witness): the bound theorem applied to a concrete complete run. -/
theorem c1_witness :
    evaluateFhirpathAsync alwaysTrueOracle todayFixed (directModel []) =
      Except.ok ⟨[], false, 1, [], [[]], []⟩ ∧
    (⟨[], false, 1, [], [[]], []⟩ : DriverState).iterations ≤ 10 :=
  ⟨rfl, c1_iteration_bound.1 alwaysTrueOracle todayFixed (directModel [])
          ⟨[], false, 1, [], [[]], []⟩ rfl⟩

/-- C4 (counterexample): the claim's ordering guarantee — "the other
fingerprint still completes before the failure is surfaced" — fails on the
code.  `Promise.all` rejects as soon as the failing call rejects, without
awaiting the sibling fetch, so in the admissible schedule where only the
rejecting invocation (`MemberOf:A - VS`) has run by the time the join
observes the rejection, the evaluation aborts with the structured diagnostic
naming `A - VS` while the sibling `MemberOf:B - VS` record is still
pending (not completed, no result). -/
theorem c4_counterexample :
    admissibleAtRejection (fun k => k == "MemberOf:A - VS") "MemberOf:A - VS" ∧
    (c4Oracle "MemberOf:A - VS" (.memberOfData (.str "A") "VS")).failure =
      some "Failed to check membership: A - VS" ∧
    evaluateFhirpathAsync c4Oracle todayFixed c4Model =
      Except.error "Failed to check membership: A - VS" ∧
    mapGet (registryAtRejection c4Oracle (fun k => k == "MemberOf:A - VS") c4Reg1)
        "MemberOf:B - VS" =
      some ⟨false, none, .memberOfData (.str "B") "VS"⟩ :=
  ⟨rfl, rfl, rfl, rfl⟩

/-- C4 (amended): when one of two concurrently resolving fingerprints hits a
transport failure, the whole top-level evaluation aborts with the structured
diagnostic naming the failing fingerprint (`A - VS`), not a generic error;
the other fingerprint's resolution is launched in the same batch, and in the
schedule where every launched invocation has run by the time the rejection
is observed it has completed with its `true` result — but the program does
not guarantee that ordering (see the counterexample schedule). -/
theorem c4_partial_failure :
    evaluateFhirpathAsync c4Oracle todayFixed c4Model =
      Except.error "Failed to check membership: A - VS" ∧
    (driverBody c4Oracle todayFixed c4Model ⟨[], false, 0, [], [], []⟩).map
        (fun st => st.registry) = Except.ok c4Reg1 ∧
    (resolvePhase c4Oracle c4Reg1).2.1 = ["MemberOf:A - VS", "MemberOf:B - VS"] ∧
    mapGet (registryAtRejection c4Oracle (fun _ => true) c4Reg1) "MemberOf:B - VS" =
      some ⟨true, some (.boolV true), .memberOfData (.str "B") "VS"⟩ :=
  ⟨rfl, rfl, rfl, rfl⟩

/-- C5: for `{code: "M", system: "SYS"}` and `code.memberOf('VS1')` with the
membership adapter mapping `SYS|M - VS1` to `true`: the first pass returns
the empty output and registers the pending fingerprint, the resolve phase
completes the record with `true`, the second pass returns `[true]`, and the
loop terminates (complete, after exactly 2 iterations). -/
theorem c5_memberOf_scenario :
    createIndexKeyMemberOf (.coding codingM) "VS1" = some "SYS|M - VS1" ∧
    evaluateFhirpathAsync okTrueOracle todayFixed c5Model =
      Except.ok ⟨[("MemberOf:SYS|M - VS1", c2Record)], false, 2,
        ["MemberOf:SYS|M - VS1"], [[[]], [[Value.boolV true]]], [Value.boolV true]⟩ :=
  ⟨rfl, rfl⟩

/-- C8: the mocked reference-resolve adapter, given a URL matching no known
mapping, completes with an absent result ("not found") instead of failing;
the driver run returns successfully with an empty result list (no value for
that element) and terminates as complete after the second pass. -/
theorem c8_resolve_not_found :
    resolveAsyncMock (.str "http://example/Organization/1") =
      ⟨true, none, none⟩ ∧
    evaluateFhirpathAsync okTrueOracle todayFixed c8Model =
      Except.ok ⟨[("Resolve:http://example/Organization/1",
          ⟨true, none, .resolveData (.str "http://example/Organization/1")⟩)], false, 2,
        ["Resolve:http://example/Organization/1"], [[[]], [[]]], []⟩ :=
  ⟨rfl, rfl⟩

/-- C9 (counterexample): the driver CAN invoke an adapter's resolve function
more than once for the same fingerprint.  Against a `$validate-code` response
carrying neither a `result` parameter nor an `issue`, `memberOfAsync` returns
without completing its record, so the fingerprint `MemberOf:A - VS` is
re-registered and re-resolved on every subsequent pass: over the bounded run
its adapter is invoked 9 times, refuting "attempted exactly once". -/
theorem c9_counterexample :
    (evaluateFhirpathAsync noResultOracle todayFixed c9Model).map
        (fun st => st.resolveLog.count "MemberOf:A - VS") = Except.ok 9 ∧
    ¬ ((9 : Nat) ≤ 1) :=
  ⟨rfl, by decide⟩

/-- C9 (amended): whenever every adapter invocation completes its record
(which holds for every invocation that does not hit the no-result/no-issue
response — such an invocation either completes or aborts the evaluation),
the driver never invokes an adapter twice for the same fingerprint: the
invocation log of a finished run has no duplicates.  An adapter invocation
that returns without completing its record is, however, re-attempted on the
next pass. -/
theorem c9_attempted_once (o : Oracle) (hco : completingOracle o)
    (today : SimpleDate) (m : EvaluatorModel) (st : DriverState)
    (h : evaluateFhirpathAsync o today m = Except.ok st) : st.resolveLog.Nodup :=
  evaluateFhirpathAsync_log_nodup o today m st hco h

/-- C9 (witness): the amended theorem applied to a concrete completing run. -/
theorem c9_witness :
    completingOracle alwaysTrueOracle ∧
    evaluateFhirpathAsync alwaysTrueOracle todayFixed c2Model = Except.ok c2Final ∧
    c2Final.resolveLog.Nodup :=
  ⟨fun _ _ => rfl, rfl,
   c9_attempted_once alwaysTrueOracle (fun _ _ => rfl) todayFixed c2Model c2Final rfl⟩

/-- C6 (counterexample): in the early interception layer of
`src/utils/fhirpath-async.ts` a malformed element — one for which the
fingerprint function of the final layer returns absence — is NOT skipped:
the handler queues pending work under the degenerate key `" - VS"` and marks
the pass incomplete, refuting "unresolvable elements never register pending
work" for that cited handler. -/
theorem c6_counterexample :
    createIndexKeyMemberOf malformedCC "VS" = none ∧
    utilsMemberOfElement ⟨[], false⟩ "VS" malformedCC =
      (⟨[(" - VS", none)], true⟩, none) :=
  ⟨rfl, rfl⟩

/-- C6 (amended): in the part_001 interception layer, an input element whose
fingerprint is absent is skipped with no side effect (empty result, nothing
registered, pass not marked incomplete), for both `memberOf` and `resolve`;
within one fan-out invocation such an element is handled independently of the
others: deleting it from the input collection changes neither the resulting
state nor the handler output.  (The early `src/utils/fhirpath-async.ts`
layer instead queues such elements under a degenerate key.) -/
theorem c6_malformed_skipped :
    (∀ (st : PassState) (vs : String) (cd : CodeData),
        createIndexKeyMemberOf cd vs = none → memberOfElement st vs cd = (st, none)) ∧
    (∀ (st : PassState) (rd : RefData),
        createIndexKeyResolve rd = none → resolveElement st rd = (st, none)) ∧
    (∀ (today : SimpleDate) (st : PassState) (vs : String) (xs ys : List CodeData)
        (cd : CodeData), createIndexKeyMemberOf cd vs = none →
        runEvent today st (.memberOfCall (xs ++ cd :: ys) vs) =
          runEvent today st (.memberOfCall (xs ++ ys) vs)) :=
  ⟨memberOfElement_malformed, resolveElement_malformed,
   fun today st vs xs ys cd h => runEvent_memberOf_skip today st vs xs ys cd h⟩

/-- C6 (witness): the amended theorem applied to the malformed
CodeableConcept, alone and inside a fan-out input collection. -/
theorem c6_witness :
    createIndexKeyMemberOf malformedCC "VS" = none ∧
    memberOfElement ⟨[], false⟩ "VS" malformedCC = (⟨[], false⟩, none) ∧
    resolveElement ⟨[], false⟩ (.ref ⟨none⟩) = (⟨[], false⟩, none) ∧
    runEvent todayFixed ⟨[], false⟩ (.memberOfCall ([.str "A"] ++ malformedCC :: []) "VS") =
      runEvent todayFixed ⟨[], false⟩ (.memberOfCall ([.str "A"] ++ []) "VS") :=
  ⟨rfl,
   c6_malformed_skipped.1 ⟨[], false⟩ "VS" malformedCC rfl,
   c6_malformed_skipped.2.1 ⟨[], false⟩ (.ref ⟨none⟩) rfl,
   c6_malformed_skipped.2.2 todayFixed ⟨[], false⟩ "VS" [.str "A"] [] malformedCC rfl⟩

/-- C2 (counterexample): the claim's unconditional "exactly one external
resolution per fingerprint, all N call sites memoized next pass" fails on
the code.  With the same logical membership call issued from two call sites
in every pass, against a `$validate-code` response carrying neither a
`result` parameter nor an `issue`, `memberOfAsync` repeatedly returns
without completing the record: the fingerprint `MemberOf:SYS|M - VS1` is
resolved 9 times over the bounded run, every pass's two call sites both
receive the empty output, and no call site ever receives a memoized
result. -/
theorem c2_counterexample :
    (evaluateFhirpathAsync noResultOracle todayFixed c2Model).map
        (fun st => (st.resolveLog.count "MemberOf:SYS|M - VS1", st.results,
                    st.passOutputs.all (fun outs => outs == [[], []]))) =
      Except.ok (9, [], true) ∧
    ¬ ((9 : Nat) ≤ 1) :=
  ⟨rfl, by decide⟩

/-- C2 (amended): de-duplication and memoization under completing adapters.
The registry keeps at most one record per fingerprint, and whenever every
adapter invocation completes its record (every response carrying a `result`
parameter or an `issue`; a non-completing invocation is instead re-attempted
each pass, see the counterexample), no fingerprint's adapter is resolved
more than once in the whole run (the invocation log counts each fingerprint
at most once); in the concrete scenario where the same logical membership
call (`SYS|M` in `VS1`) is issued from two call sites in every pass, exactly
one external resolution is performed and, in the pass after resolution, both
call sites receive the same memoized `true` (final state `c2Final`: one log
entry, second-pass outputs `[true]` at each of the two sites). -/
theorem c2_single_resolution :
    (∀ (o : Oracle), completingOracle o →
      ∀ (today : SimpleDate) (m : EvaluatorModel) (st : DriverState) (fp : String),
        evaluateFhirpathAsync o today m = Except.ok st → st.resolveLog.count fp ≤ 1) ∧
    (evaluateFhirpathAsync okTrueOracle todayFixed c2Model = Except.ok c2Final ∧
     c2Final.resolveLog.count "MemberOf:SYS|M - VS1" = 1) := by
  constructor
  · intro o hco today m st fp h
    exact List.nodup_iff_count_le_one.mp
      (evaluateFhirpathAsync_log_nodup o today m st hco h) fp
  · exact ⟨rfl, rfl⟩

/-- C2 (witness): the de-duplication bound applied to a concrete run. -/
theorem c2_witness :
    completingOracle alwaysTrueOracle ∧
    evaluateFhirpathAsync alwaysTrueOracle todayFixed c2Model = Except.ok c2Final ∧
    c2Final.resolveLog.count "MemberOf:SYS|M - VS1" ≤ 1 :=
  ⟨fun _ _ => rfl, rfl,
   c2_single_resolution.1 alwaysTrueOracle (fun _ _ => rfl) todayFixed c2Model c2Final
     "MemberOf:SYS|M - VS1" rfl⟩

/-- C3: completion is monotone and stable.  (1) A handler invocation whose
fingerprint owns a completed record returns the stored result and leaves the
state untouched; (2) the resolve phase preserves a completed record exactly
and never invokes its adapter; (3) from any loop state in which a
fingerprint's record is completed, the rest of the run (any fuel) preserves
that record unchanged and never again invokes its adapter (the invocation
count of that fingerprint stays constant). -/
theorem c3_completed_monotonic :
    (∀ (st : PassState) (vs : String) (cd : CodeData) (k0 : String) (r : RecordData),
        createIndexKeyMemberOf cd vs = some k0 → k0 ≠ "" →
        mapGet st.registry ("MemberOf:" ++ k0) = some r → r.evaluationCompleted = true →
        memberOfElement st vs cd = (st, r.result)) ∧
    (∀ (o : Oracle) (reg : Registry) (fp : String) (r : RecordData), keysNodup reg →
        mapGet reg fp = some r → r.evaluationCompleted = true →
        mapGet (resolvePhase o reg).1 fp = some r ∧ fp ∉ (resolvePhase o reg).2.1) ∧
    (∀ (o : Oracle) (today : SimpleDate) (m : EvaluatorModel) (fuel : Nat)
        (st st1 : DriverState) (fp : String) (r : RecordData),
        keysNodup st.registry → mapGet st.registry fp = some r →
        r.evaluationCompleted = true → driverGo o today m fuel st = Except.ok st1 →
        mapGet st1.registry fp = some r ∧
        st1.resolveLog.count fp = st.resolveLog.count fp) := by
  refine ⟨?_, ?_, ?_⟩
  · intro st vs cd k0 r hk hne hget hc
    unfold memberOfElement
    rw [hk]
    show (if k0 = "" then (st, none)
          else handlerElement st ("MemberOf:" ++ k0) (.memberOfData cd vs)) = (st, r.result)
    rw [if_neg hne]
    exact handlerElement_cached st ("MemberOf:" ++ k0) _ r hget hc
  · intro o reg fp r hn hget hc
    exact ⟨resolvePhase_preserve o reg fp r hget hc,
           not_invoked_of_completed o reg fp r hn hget hc⟩
  · intro o today m fuel st st1 fp r hn hget hc h
    exact driverGo_preserve o today m fuel st st1 fp r hn hget hc h

/-- C3 (witness): the stability theorem applied to a concrete completed
record (`SYS|M - VS1` completed with `true`) through a handler invocation, a
resolve phase, and a full remaining run. -/
theorem c3_witness :
    memberOfElement ⟨c3Reg, false⟩ "VS1" (.coding codingM) =
      (⟨c3Reg, false⟩, some (Value.boolV true)) ∧
    (mapGet (resolvePhase okTrueOracle c3Reg).1 "MemberOf:SYS|M - VS1" = some c2Record ∧
      "MemberOf:SYS|M - VS1" ∉ (resolvePhase okTrueOracle c3Reg).2.1) ∧
    (mapGet (⟨c3Reg, false, 1, [], [[[Value.boolV true]]], [Value.boolV true]⟩ :
          DriverState).registry "MemberOf:SYS|M - VS1" = some c2Record ∧
      (⟨c3Reg, false, 1, [], [[[Value.boolV true]]], [Value.boolV true]⟩ :
          DriverState).resolveLog.count "MemberOf:SYS|M - VS1" =
        (⟨c3Reg, false, 0, [], [], []⟩ : DriverState).resolveLog.count
          "MemberOf:SYS|M - VS1") := by
  refine ⟨?_, ?_, ?_⟩
  · exact c3_completed_monotonic.1 ⟨c3Reg, false⟩ "VS1" (.coding codingM)
      "SYS|M - VS1" c2Record rfl (by decide) rfl rfl
  · exact c3_completed_monotonic.2.1 okTrueOracle c3Reg "MemberOf:SYS|M - VS1" c2Record
      (by show (c3Reg.map Prod.fst).Nodup; decide) rfl rfl
  · exact c3_completed_monotonic.2.2 okTrueOracle todayFixed c5Model 10
      ⟨c3Reg, false, 0, [], [], []⟩
      ⟨c3Reg, false, 1, [], [[[Value.boolV true]]], [Value.boolV true]⟩
      "MemberOf:SYS|M - VS1" c2Record
      (by show (c3Reg.map Prod.fst).Nodup; decide) rfl rfl rfl

/-- C7: an evaluator making zero interceptable calls finishes in exactly one
pass: the registry stays empty, the resolve phase is never entered (empty
invocation log), and the driver returns the evaluator's direct output
unchanged. -/
theorem c7_single_pass (o : Oracle) (today : SimpleDate) (m : EvaluatorModel)
    (h : m.events 1 = []) :
    evaluateFhirpathAsync o today m =
      Except.ok ⟨[], false, 1, [], [[]], m.assemble 1 []⟩ := by
  have hp : (runPass today ⟨[], false⟩ (m.events 1)).1 = ⟨[], false⟩ := by rw [h]; rfl
  have hd := driver_one_pass o today m hp
  rw [h] at hd
  exact hd

/-- C7 (witness): a concrete evaluator with no interceptable calls. -/
theorem c7_witness :
    evaluateFhirpathAsync alwaysTrueOracle todayFixed (directModel [Value.strV "x"]) =
      Except.ok ⟨[], false, 1, [], [[]], [Value.strV "x"]⟩ :=
  c7_single_pass alwaysTrueOracle todayFixed (directModel [Value.strV "x"]) rfl

/-- C10: the intercepted `toAge` is fully synchronous.  (1) A `toAge`
invocation computes its answers in the same pass and leaves the registry and
the incompleteness flag untouched; (2) every input that is not a valid
`YYYY-MM-DD` calendar date string yields no value (and is therefore dropped
by the fan-out's filter rather than producing a placeholder); (3) a run whose
first pass makes only `toAge` calls completes in exactly one pass with an
empty registry and no adapter invocations. -/
theorem c10_toAge_synchronous :
    (∀ (today : SimpleDate) (st : PassState) (inputs : List String),
        runEvent today st (.toAgeCall inputs) =
          (st, (inputs.map (fun s => (birthdateToAge today s).map Value.intV)).filterMap id)) ∧
    (∀ (today : SimpleDate) (s : String), isValidDateString s = false →
        birthdateToAge today s = none) ∧
    (∀ (o : Oracle) (today : SimpleDate) (m : EvaluatorModel),
        (∀ e ∈ m.events 1, ∃ inputs, e = CallEvent.toAgeCall inputs) →
        evaluateFhirpathAsync o today m =
          Except.ok ⟨[], false, 1, [], [(runPass today ⟨[], false⟩ (m.events 1)).2],
            m.assemble 1 ((runPass today ⟨[], false⟩ (m.events 1)).2)⟩) := by
  refine ⟨fun _ _ _ => rfl, ?_, ?_⟩
  · intro today s h
    unfold birthdateToAge
    rw [h]
    rfl
  · intro o today m h
    exact driver_one_pass o today m (runPass_toAge_fix today (m.events 1) ⟨[], false⟩ h)

/-- C10 (witness): the `toAge` theorem applied to a concrete input pair (one
valid birthdate, one invalid string) and a concrete toAge-only run. -/
theorem c10_witness :
    runEvent todayFixed ⟨[], false⟩ (.toAgeCall ["1990-05-10", "not-a-date"]) =
      (⟨[], false⟩, [Value.intV 36]) ∧
    isValidDateString "not-a-date" = false ∧
    birthdateToAge todayFixed "not-a-date" = none ∧
    evaluateFhirpathAsync alwaysTrueOracle todayFixed toAgeModel =
      Except.ok ⟨[], false, 1, [], [[[Value.intV 36]]], [Value.intV 36]⟩ := by
  refine ⟨c10_toAge_synchronous.1 todayFixed ⟨[], false⟩ _, rfl,
    c10_toAge_synchronous.2.1 todayFixed "not-a-date" rfl, ?_⟩
  have h : ∀ e ∈ toAgeModel.events 1, ∃ inputs, e = CallEvent.toAgeCall inputs := by
    intro e he
    refine ⟨["1990-05-10", "not-a-date"], ?_⟩
    simpa [toAgeModel, flattenModel] using he
  exact c10_toAge_synchronous.2.2 alwaysTrueOracle todayFixed toAgeModel h

end FhirpathAsyncPOC
